import Mathlib

/-!
Verification development for the mastering DSP backend (src/backend/main.py).

The backend is a single Python file implementing a "radio-ready" mastering
chain: sample normalization, a one-pole high-pass filter, integrated-loudness
measurement (delegated to the pyloudnorm library), gain correction, a tanh
soft limiter, and a sample-peak guard, exposed through a `/master` endpoint.

Two complementary shallow embeddings are used:

* Exact real-number models of the per-stage functions (floats modeled as
  reals), used for the functional-correctness properties of the filter,
  limiter and peak guard, plus an exact rational model of the integer
  sample normalizer.

* An IEEE-special-value model `F` (NaN, +inf, -inf, finite real) of the
  whole chain, used for the error-handling properties: the Python code
  performs no clamping of the loudness sentinel and no configuration
  validation, so NaN/Infinity propagation is exactly what those claims are
  about.  The arithmetic on `F` follows the IEEE-754 rules that Python
  floats and numpy obey in the cases the chain exercises (signed zeros and
  rounding are irrelevant here and are not modeled; finite payloads are
  exact reals).

The integrated-loudness meter itself lives in the pyloudnorm library, not in
this repository, so the chain model takes the meter as an explicit function
parameter; the documented silence sentinel (integrated loudness = -inf) is a
hypothesis where a claim needs it.
-/

namespace AiDaw

/-! ### Sample normalizer, integer branch (src/backend/main.py lines 25-35)

`_to_float32_audio` divides integer input by `np.iinfo(dtype).max` (the
largest representable value, `2^(bits-1) - 1` for signed, `2^bits - 1` for
unsigned) and passes floating input through with a cast only.  The integer
branch is modeled exactly over the rationals. -/

/-- Model of `np.iinfo(dtype).max` for a signed or unsigned integer dtype of
the given bit width. -/
def iinfoMax (signed : Bool) (bits : ℕ) : ℤ :=
  if signed then 2 ^ (bits - 1) - 1 else 2 ^ bits - 1

/-- The values representable in a signed or unsigned integer dtype of the
given bit width. -/
def intRepresentable (signed : Bool) (bits : ℕ) (v : ℤ) : Prop :=
  if signed then -(2 ^ (bits - 1)) ≤ v ∧ v ≤ 2 ^ (bits - 1) - 1
  else 0 ≤ v ∧ v ≤ 2 ^ bits - 1

/-- Integer branch of `_to_float32_audio` on one sample:
`data.astype(np.float32) / max_val` with `max_val = np.iinfo(dtype).max`. -/
def toFloat32Int (signed : Bool) (bits : ℕ) (v : ℤ) : ℚ :=
  (v : ℚ) / ((iinfoMax signed bits : ℤ) : ℚ)

/-- Floating branch of `_to_float32_audio` on one sample: a cast only. -/
def toFloat32Float (x : ℚ) : ℚ := x

/-- Integer branch of `_to_float32_audio` on a whole buffer. -/
def toFloat32AudioInt (signed : Bool) (bits : ℕ) (data : List ℤ) : List ℚ :=
  data.map (toFloat32Int signed bits)

noncomputable section

/-! ### High-pass filter (src/backend/main.py lines 37-61), exact real model

`_highpass` is a one-pole RC high-pass run as an explicit loop per channel
with state `(x_prev, y_prev)` initialized to `(0, 0)`.  A multichannel
buffer is modeled channel-major: a list of channels, each a list of
samples. -/

/-- Filter coefficient: `dt = 1/sr`, `rc = 1/(2*pi*cutoff_hz)`,
`a = rc/(rc+dt)` (src/backend/main.py lines 41-43). -/
def hpCoeff (sr cutoffHz : ℝ) : ℝ :=
  let dt : ℝ := 1 / sr
  let rc : ℝ := 1 / (2 * Real.pi * cutoffHz)
  rc / (rc + dt)

/-- The per-channel loop of `_highpass` (lines 49-54): at each sample,
`y_i = a * (y_prev + x - x_prev)`, then the state advances. -/
def hpLoop (a : ℝ) : List ℝ → ℝ → ℝ → List ℝ
  | [], _, _ => []
  | x :: xs, xPrev, yPrev =>
    let y := a * (yPrev + x - xPrev)
    y :: hpLoop a xs x y

/-- One channel of `_highpass`, state initialized to `x_prev = y_prev = 0`
(lines 47-48). -/
def highpass1 (a : ℝ) (xs : List ℝ) : List ℝ := hpLoop a xs 0 0

/-- Multichannel `_highpass` (lines 57-61): each channel is filtered
independently with the same coefficient. -/
def highpass (sr cutoffHz : ℝ) (chans : List (List ℝ)) : List (List ℝ) :=
  chans.map (highpass1 (hpCoeff sr cutoffHz))

/-- Zero-extended indexing used to state the filter recurrence. -/
def nth (xs : List ℝ) (i : ℕ) : ℝ := xs.getD i 0

/-- The sample before index `i`, with the `x[-1] = y[-1] = 0` convention. -/
def prevNth (xs : List ℝ) (i : ℕ) : ℝ := if i = 0 then 0 else nth xs (i - 1)

/-! ### Soft limiter (src/backend/main.py lines 63-74), exact real model -/

/-- The per-sample soft-limiter curve `np.tanh(x / threshold) * threshold`
(lines 72-73). -/
def softClip (threshold x : ℝ) : ℝ := Real.tanh (x / threshold) * threshold

/-- `_soft_limiter`: thresholds outside `(0, 1]` are silently replaced by
the default 0.95 (lines 70-71), then the curve is applied sample-wise. -/
def softLimiter (threshold : ℝ) (xs : List ℝ) : List ℝ :=
  let t : ℝ := if threshold ≤ 0 ∨ 1 < threshold then 0.95 else threshold
  xs.map (softClip t)

/-! ### True-peak guard (src/backend/main.py lines 76-84), exact real model

The guard works on the flattened buffer: `np.max(np.abs(audio))` is a
global reduction and the rescale is elementwise over every sample.  Since
every `|s|` is nonnegative, folding `max` with initial value 0 equals the
maximum of the absolute values on a nonempty buffer, and is 0 on an empty
one, exactly matching `float(np.max(np.abs(audio))) if audio.size else
0.0` (line 78). -/

/-- Sample peak `max |s|` over a buffer, 0 for an empty buffer (line 78). -/
def peakOf (xs : List ℝ) : ℝ := xs.foldr (fun s m => max |s| m) 0

/-- `_true_peak_guard` (lines 76-84): no-op when `peak <= 0`; otherwise
rescale by `target / peak` when `peak > target = 10^(target_peak_db/20)`. -/
def truePeakGuard (targetPeakDb : ℝ) (xs : List ℝ) : List ℝ :=
  let peak := peakOf xs
  if peak ≤ 0 then xs
  else
    let target : ℝ := (10 : ℝ) ^ (targetPeakDb / 20)
    if target < peak then xs.map (fun s => s * (target / peak)) else xs

/-! ### IEEE-special-value model of Python/numpy floats

Constructors: NaN, +inf, -inf, and finite values with exact real payloads.
The operations below implement the IEEE-754 rules Python floats and numpy
follow in the cases the chain exercises; all comparisons involving NaN are
false, as in IEEE-754. -/

/-- A Python/numpy float: NaN, an infinity, or a finite value (modeled as an
exact real). -/
inductive F where
  | nan : F
  | inf : F
  | ninf : F
  | fin : ℝ → F

/-- IEEE addition. -/
def F.add : F → F → F
  | .nan, _ => .nan
  | _, .nan => .nan
  | .inf, .ninf => .nan
  | .ninf, .inf => .nan
  | .inf, _ => .inf
  | _, .inf => .inf
  | .ninf, _ => .ninf
  | _, .ninf => .ninf
  | .fin a, .fin b => .fin (a + b)

/-- IEEE subtraction. -/
def F.sub : F → F → F
  | .nan, _ => .nan
  | _, .nan => .nan
  | .inf, .inf => .nan
  | .ninf, .ninf => .nan
  | .inf, _ => .inf
  | .ninf, _ => .ninf
  | _, .inf => .ninf
  | _, .ninf => .inf
  | .fin a, .fin b => .fin (a - b)

/-- IEEE multiplication; `0 * inf = nan`. -/
def F.mul : F → F → F
  | .nan, _ => .nan
  | _, .nan => .nan
  | .inf, .inf => .inf
  | .inf, .ninf => .ninf
  | .ninf, .inf => .ninf
  | .ninf, .ninf => .inf
  | .inf, .fin b => if b = 0 then .nan else if 0 < b then .inf else .ninf
  | .fin a, .inf => if a = 0 then .nan else if 0 < a then .inf else .ninf
  | .ninf, .fin b => if b = 0 then .nan else if 0 < b then .ninf else .inf
  | .fin a, .ninf => if a = 0 then .nan else if 0 < a then .ninf else .inf
  | .fin a, .fin b => .fin (a * b)

/-- IEEE division (zero treated as +0: no signed zeros in this model). -/
def F.div : F → F → F
  | .nan, _ => .nan
  | _, .nan => .nan
  | .inf, .inf => .nan
  | .inf, .ninf => .nan
  | .ninf, .inf => .nan
  | .ninf, .ninf => .nan
  | .inf, .fin b => if 0 ≤ b then .inf else .ninf
  | .ninf, .fin b => if 0 ≤ b then .ninf else .inf
  | .fin _, .inf => .fin 0
  | .fin _, .ninf => .fin 0
  | .fin a, .fin b =>
    if b = 0 then (if a = 0 then .nan else if 0 < a then .inf else .ninf)
    else .fin (a / b)

/-- Model of `np.tanh`: NaN propagates, `tanh(±inf) = ±1`. -/
def F.tanh : F → F
  | .nan => .nan
  | .inf => .fin 1
  | .ninf => .fin (-1)
  | .fin x => .fin (Real.tanh x)

/-- Model of `10.0 ** e`: `10**nan = nan`, `10**inf = inf`,
`10**(-inf) = 0`. -/
def F.pow10 : F → F
  | .nan => .nan
  | .inf => .inf
  | .ninf => .fin 0
  | .fin e => .fin ((10 : ℝ) ^ e)

/-- Model of `np.abs`. -/
def F.abs : F → F
  | .nan => .nan
  | .inf => .inf
  | .ninf => .inf
  | .fin x => .fin |x|

/-- Model of `np.maximum` (the reduction step of `np.max`): NaN
propagates. -/
def F.fmax : F → F → F
  | .nan, _ => .nan
  | _, .nan => .nan
  | .inf, _ => .inf
  | _, .inf => .inf
  | .ninf, b => b
  | a, .ninf => a
  | .fin a, .fin b => .fin (max a b)

/-- IEEE `<=` as Python evaluates it: any comparison with NaN is false. -/
def F.leb : F → F → Bool
  | .nan, _ => false
  | _, .nan => false
  | .ninf, _ => true
  | _, .ninf => false
  | _, .inf => true
  | .inf, _ => false
  | .fin a, .fin b => decide (a ≤ b)

/-- IEEE `<` as Python evaluates it: any comparison with NaN is false. -/
def F.ltb : F → F → Bool
  | .nan, _ => false
  | _, .nan => false
  | _, .ninf => false
  | .ninf, _ => true
  | .inf, _ => false
  | _, .inf => true
  | .fin a, .fin b => decide (a < b)

/-- Whether a modeled float is finite (neither NaN nor an infinity). -/
def F.isFinite : F → Bool
  | .fin _ => true
  | _ => false

/-! ### The mastering chain over the float model (src/backend/main.py 86-110)

Buffers are channel-major lists of channels.  The pyloudnorm meter
(`pyln.Meter(sr).integrated_loudness`) is external library code and enters
as an explicit function parameter. -/

/-- The `_to_float32_audio` step as the chain sees it: the endpoint decodes
with soundfile, which yields floating samples, so only the cast-only branch
runs (identity in this model). -/
def toFloat32F (data : List (List F)) : List (List F) := data

/-- Per-channel loop of `_highpass` over modeled floats. -/
def hpChannelF (a : ℝ) : List F → F → F → List F
  | [], _, _ => []
  | x :: xs, xPrev, yPrev =>
    let y := F.mul (.fin a) (F.sub (F.add yPrev x) xPrev)
    y :: hpChannelF a xs x y

/-- `_highpass` over modeled floats, per channel, zero initial state. -/
def highpassF (sr cutoffHz : ℝ) (buf : List (List F)) : List (List F) :=
  buf.map (fun ch => hpChannelF (hpCoeff sr cutoffHz) ch (.fin 0) (.fin 0))

/-- The buffer handed to the loudness meter (lines 99-101): for more than
two channels, only the first two are kept (`audio[:, :2]`). -/
def meterInput (buf : List (List F)) : List (List F) :=
  if 2 < buf.length then buf.take 2 else buf

/-- The linear gain of lines 103-105:
`gain = 10 ** ((target_lufs - loudness) / 20)` with no clamping of any
kind. -/
def chainGainF (meter : List (List F) → F) (targetLufs : F)
    (filtered : List (List F)) : F :=
  F.pow10 (F.div (F.sub targetLufs (meter (meterInput filtered))) (.fin 20))

/-- Line 106: `audio = audio * gain`, every sample of every channel. -/
def applyGainF (g : F) (buf : List (List F)) : List (List F) :=
  buf.map (List.map (fun s => F.mul s g))

/-- `_soft_limiter` over modeled floats (the chain calls it with
threshold 0.95). -/
def softLimiterF (threshold : ℝ) (buf : List (List F)) : List (List F) :=
  let t : ℝ := if threshold ≤ 0 ∨ 1 < threshold then 0.95 else threshold
  buf.map (List.map (fun s => F.mul (F.tanh (F.div s (.fin t))) (.fin t)))

/-- Global sample peak over modeled floats: `np.max(np.abs(audio))` on a
nonempty buffer (a left fold of `np.maximum`), `0.0` on an empty one. -/
def peakF (buf : List (List F)) : F :=
  match buf.flatten with
  | [] => .fin 0
  | x :: xs => (xs.map F.abs).foldl F.fmax (F.abs x)

/-- `_true_peak_guard` over modeled floats; the Python comparisons
`peak <= 0` and `peak > target` are IEEE comparisons, false on NaN. -/
def truePeakGuardF (targetPeakDb : ℝ) (buf : List (List F)) : List (List F) :=
  let peak := peakF buf
  if F.leb peak (.fin 0) then buf
  else
    let target : ℝ := (10 : ℝ) ^ (targetPeakDb / 20)
    if F.ltb (.fin target) peak then
      buf.map (List.map (fun s => F.mul s (F.div (.fin target) peak)))
    else buf

/-- `master_chain` (lines 86-110): normalize (cast), high-pass at 80 Hz,
measure loudness on the (possibly truncated) buffer, apply the gain, soft
limit at 0.95, guard the peak at -1 dB. -/
def masterChainF (meter : List (List F) → F) (sr : ℝ) (targetLufs : F)
    (data : List (List F)) : List (List F) :=
  let a0 := toFloat32F data
  let a1 := highpassF sr 80 a0
  let g := chainGainF meter targetLufs a1
  let a2 := applyGainF g a1
  let a3 := softLimiterF 0.95 a2
  truePeakGuardF (-1) a3

/-- The `/master` endpoint's possible outcomes: a 400 response when
soundfile cannot decode the upload, or a response carrying the mastered
buffer (lines 112-159; the wav/mp3 encode step does not alter the mastered
samples). -/
inductive MasterResponse where
  | badRequest : MasterResponse
  | mastered : List (List F) → MasterResponse

/-- The `/master` endpoint (lines 112-129): decode failure returns 400;
otherwise `master_chain` runs unconditionally — the code contains no
configuration validation of any kind. -/
def masterEndpoint (meter : List (List F) → F) (sr : ℝ)
    (decoded : Option (List (List F))) (targetLufs : F) : MasterResponse :=
  match decoded with
  | none => .badRequest
  | some data => .mastered (masterChainF meter sr targetLufs data)

/-- An all-zero (silent) buffer with `c` channels and `n` frames. -/
def silentBuf (c n : ℕ) : List (List F) :=
  List.replicate c (List.replicate n (F.fin 0))

end

/-! ### Analytic facts about `Real.tanh` needed for the limiter claims -/

theorem tanh_lt_one (x : ℝ) : Real.tanh x < 1 := by
  rw [Real.tanh_eq_sinh_div_cosh, div_lt_one (Real.cosh_pos x)]
  exact Real.sinh_lt_cosh x

theorem neg_one_lt_tanh (x : ℝ) : -1 < Real.tanh x := by
  have h := tanh_lt_one (-x)
  rw [Real.tanh_neg] at h
  linarith

theorem abs_tanh_lt_one (x : ℝ) : |Real.tanh x| < 1 :=
  abs_lt.mpr ⟨neg_one_lt_tanh x, tanh_lt_one x⟩

theorem tanh_nonneg {x : ℝ} (hx : 0 ≤ x) : 0 ≤ Real.tanh x := by
  rw [Real.tanh_eq_sinh_div_cosh]
  exact div_nonneg (Real.sinh_nonneg_iff.mpr hx) (Real.cosh_pos x).le

theorem tanh_strictMono : StrictMono Real.tanh := by
  intro x y hxy
  rw [Real.tanh_eq_sinh_div_cosh, Real.tanh_eq_sinh_div_cosh,
    div_lt_div_iff₀ (Real.cosh_pos x) (Real.cosh_pos y)]
  have h : Real.sinh (x - y) < 0 := Real.sinh_neg_iff.mpr (sub_neg.mpr hxy)
  rw [Real.sinh_sub] at h
  nlinarith [h]

theorem mulCoshSubSinh_strictMonoOn :
    StrictMonoOn (fun z : ℝ => z * Real.cosh z - Real.sinh z) (Set.Ici 0) := by
  apply strictMonoOn_of_deriv_pos (convex_Ici 0)
  · exact ((continuous_id.mul Real.continuous_cosh).sub
      Real.continuous_sinh).continuousOn
  · intro z hz
    rw [interior_Ici, Set.mem_Ioi] at hz
    have hd : HasDerivAt (fun z : ℝ => z * Real.cosh z - Real.sinh z)
        (1 * Real.cosh z + z * Real.sinh z - Real.cosh z) z :=
      ((hasDerivAt_id z).mul (Real.hasDerivAt_cosh z)).sub (Real.hasDerivAt_sinh z)
    rw [hd.deriv]
    have h2 : 0 < z * Real.sinh z := mul_pos hz (Real.sinh_pos_iff.mpr hz)
    linarith

theorem sinh_lt_mul_cosh {x : ℝ} (hx : 0 < x) : Real.sinh x < x * Real.cosh x := by
  have h := mulCoshSubSinh_strictMonoOn Set.left_mem_Ici (Set.mem_Ici.mpr hx.le) hx
  norm_num at h
  linarith

theorem tanh_lt_self {x : ℝ} (hx : 0 < x) : Real.tanh x < x := by
  rw [Real.tanh_eq_sinh_div_cosh, div_lt_iff₀ (Real.cosh_pos x)]
  exact sinh_lt_mul_cosh hx

theorem abs_tanh (x : ℝ) : |Real.tanh x| = Real.tanh |x| := by
  rcases le_total 0 x with h | h
  · rw [abs_of_nonneg h, abs_of_nonneg (tanh_nonneg h)]
  · have h1 : Real.tanh x ≤ 0 := by
      have h2 := tanh_nonneg (neg_nonneg.mpr h)
      rw [Real.tanh_neg] at h2
      linarith
    rw [abs_of_nonpos h, abs_of_nonpos h1, Real.tanh_neg]

/-! ### C4, C6, C10: the soft limiter -/

/-- C4: the soft limiter computes `y = tanh(x/threshold) * threshold`
independently for each sample (memoryless); for every threshold in `(0,1]`
and every finite sample `x` the output satisfies `|y| < threshold`; the
per-sample mapping is strictly monotonically increasing and odd-symmetric
in `x`. -/
theorem soft_limiter_memoryless_bounded_monotone_odd (t : ℝ)
    (h1 : 0 < t) (h2 : t ≤ 1) (xs : List ℝ) :
    softLimiter t xs = xs.map (softClip t) ∧
    (∀ x : ℝ, |softClip t x| < t) ∧
    StrictMono (softClip t) ∧
    (∀ x : ℝ, softClip t (-x) = -softClip t x) := by
  have hcond : ¬(t ≤ 0 ∨ 1 < t) := by push_neg; exact ⟨h1, h2⟩
  refine ⟨?_, ?_, ?_, ?_⟩
  · simp only [softLimiter]
    rw [if_neg hcond]
  · intro x
    calc |softClip t x| = |Real.tanh (x / t)| * t := by
          rw [softClip, abs_mul, abs_of_pos h1]
      _ < 1 * t := mul_lt_mul_of_pos_right (abs_tanh_lt_one _) h1
      _ = t := one_mul t
  · intro x y hxy
    unfold softClip
    exact mul_lt_mul_of_pos_right
      (tanh_strictMono ((div_lt_div_iff_of_pos_right h1).mpr hxy)) h1
  · intro x
    unfold softClip
    rw [neg_div, Real.tanh_neg, neg_mul]

theorem soft_limiter_memoryless_bounded_monotone_odd_witness :
    (0 : ℝ) < 1 ∧ (1 : ℝ) ≤ 1 ∧ |softClip 1 0| < 1 :=
  ⟨by norm_num, le_refl 1,
    (soft_limiter_memoryless_bounded_monotone_odd 1 (by norm_num)
      (le_refl 1) []).2.1 0⟩

/-- C6: a limiter threshold outside `(0,1]` is not an error: the limiter
silently replaces it with the default 0.95, so the output equals the output
obtained with threshold 0.95 on every input buffer. -/
theorem soft_limiter_default_out_of_range (t : ℝ) (xs : List ℝ)
    (h : t ≤ 0 ∨ 1 < t) :
    softLimiter t xs = softLimiter 0.95 xs := by
  simp only [softLimiter]
  rw [if_pos h, if_neg (by norm_num)]

theorem soft_limiter_default_out_of_range_witness :
    softLimiter 2 [1] = softLimiter 0.95 [1] :=
  soft_limiter_default_out_of_range 2 [1] (Or.inr (by norm_num))

/-- C10: for every threshold `t` in `(0,1]` the per-sample limiter curve is
contractive, `|tanh(x/t) * t| ≤ |x|`, with equality only at `x = 0`: every
nonzero sample is strictly attenuated, including samples below the
threshold, so the limiter is not the identity on sub-threshold signal. -/
theorem soft_limiter_contractive (t : ℝ) (h1 : 0 < t) (_h2 : t ≤ 1) :
    (∀ x : ℝ, |softClip t x| ≤ |x|) ∧
    (∀ x : ℝ, x ≠ 0 → |softClip t x| < |x|) ∧
    softClip t 0 = 0 := by
  have key : ∀ x : ℝ, x ≠ 0 → |softClip t x| < |x| := by
    intro x hx
    have habs : |softClip t x| = Real.tanh (|x| / t) * t := by
      rw [softClip, abs_mul, abs_of_pos h1, abs_tanh, abs_div, abs_of_pos h1]
    have hpos : 0 < |x| / t := div_pos (abs_pos.mpr hx) h1
    rw [habs]
    calc Real.tanh (|x| / t) * t < (|x| / t) * t :=
          mul_lt_mul_of_pos_right (tanh_lt_self hpos) h1
      _ = |x| := div_mul_cancel₀ _ h1.ne'
  refine ⟨?_, key, ?_⟩
  · intro x
    by_cases hx : x = 0
    · subst hx; simp [softClip, Real.tanh_zero]
    · exact (key x hx).le
  · simp [softClip, Real.tanh_zero]

theorem soft_limiter_contractive_witness :
    (0 : ℝ) < 1 ∧ (1 : ℝ) ≤ 1 ∧ |softClip 1 1| < |(1 : ℝ)| :=
  ⟨by norm_num, le_refl 1,
    (soft_limiter_contractive 1 (by norm_num) (le_refl 1)).2.1 1 one_ne_zero⟩

/-! ### C3: the high-pass filter recurrence -/

theorem hpLoop_length (a : ℝ) :
    ∀ (xs : List ℝ) (xp yp : ℝ), (hpLoop a xs xp yp).length = xs.length := by
  intro xs
  induction xs with
  | nil => intro xp yp; rfl
  | cons x rest ih => intro xp yp; simp [hpLoop, ih]

theorem hpLoop_nth_zero (a x : ℝ) (rest : List ℝ) (xp yp : ℝ) :
    nth (hpLoop a (x :: rest) xp yp) 0 = a * (yp + x - xp) := by
  simp [hpLoop, nth]

theorem hpLoop_nth_succ (a : ℝ) :
    ∀ (xs : List ℝ) (xp yp : ℝ) (j : ℕ), j + 1 < xs.length →
      nth (hpLoop a xs xp yp) (j + 1) =
        a * (nth (hpLoop a xs xp yp) j + nth xs (j + 1) - nth xs j) := by
  intro xs
  induction xs with
  | nil => intro xp yp j h; simp at h
  | cons x rest ih =>
    intro xp yp j h
    cases j with
    | zero =>
      cases rest with
      | nil => simp at h
      | cons x2 rest2 => simp [hpLoop, nth]
    | succ k =>
      have hk : k + 1 < rest.length := by simpa using h
      have h2 := ih x (a * (yp + x - xp)) k hk
      simpa [hpLoop, nth] using h2

/-- C3: for every channel of every input buffer and all `sampleRate > 0`,
`cutoffHz > 0`, the filter output satisfies
`y[n] = a * (y[n-1] + x[n] - x[n-1])` with `x[-1] = y[-1] = 0` and
`a = rc/(rc+dt)`, `rc = 1/(2*pi*cutoffHz)`, `dt = 1/sampleRate`; channels
are filtered independently and the output length equals the input length. -/
theorem highpass_recurrence (sr cutoffHz : ℝ)
    (_hsr : 0 < sr) (_hcf : 0 < cutoffHz) (chans : List (List ℝ)) :
    highpass sr cutoffHz chans = chans.map (highpass1 (hpCoeff sr cutoffHz)) ∧
    ∀ ch ∈ chans,
      (highpass1 (hpCoeff sr cutoffHz) ch).length = ch.length ∧
      ∀ i, i < ch.length →
        nth (highpass1 (hpCoeff sr cutoffHz) ch) i =
          hpCoeff sr cutoffHz *
            (prevNth (highpass1 (hpCoeff sr cutoffHz) ch) i + nth ch i
              - prevNth ch i) := by
  constructor
  · rfl
  · intro ch _
    constructor
    · exact hpLoop_length _ ch 0 0
    · intro i hi
      cases i with
      | zero =>
        cases ch with
        | nil => simp at hi
        | cons x rest =>
          simp [highpass1, prevNth, nth, hpLoop]
      | succ j =>
        simp only [highpass1, prevNth, Nat.succ_ne_zero, if_false,
          Nat.add_sub_cancel]
        exact hpLoop_nth_succ _ ch 0 0 j hi

theorem highpass_recurrence_witness :
    (0 : ℝ) < 44100 ∧ (0 : ℝ) < 80 ∧
    (highpass 44100 80 [[1, 2]] = [[(1 : ℝ), 2]].map (highpass1 (hpCoeff 44100 80)) ∧
      ∀ ch ∈ [[(1 : ℝ), 2]],
        (highpass1 (hpCoeff 44100 80) ch).length = ch.length ∧
        ∀ i, i < ch.length →
          nth (highpass1 (hpCoeff 44100 80) ch) i =
            hpCoeff 44100 80 *
              (prevNth (highpass1 (hpCoeff 44100 80) ch) i + nth ch i
                - prevNth ch i)) :=
  ⟨by norm_num, by norm_num,
    highpass_recurrence 44100 80 (by norm_num) (by norm_num) [[1, 2]]⟩

/-! ### C5: the true-peak guard -/

theorem peakOf_cons (x : ℝ) (xs : List ℝ) :
    peakOf (x :: xs) = max |x| (peakOf xs) := rfl

theorem peakOf_nonneg (xs : List ℝ) : 0 ≤ peakOf xs := by
  induction xs with
  | nil => exact le_refl 0
  | cons x rest ih =>
    rw [peakOf_cons]
    exact le_max_of_le_right ih

theorem peakOf_map_mul (xs : List ℝ) (c : ℝ) (hc : 0 ≤ c) :
    peakOf (xs.map (fun s => s * c)) = peakOf xs * c := by
  induction xs with
  | nil => simp [peakOf]
  | cons x rest ih =>
    simp only [List.map_cons, peakOf_cons, ih]
    rw [abs_mul, abs_of_nonneg hc]
    exact (max_mul_of_nonneg _ _ hc).symm

/-- C5: the guard computes `peak = max |sample|` over the whole buffer;
when `peak > 10^(peakCeilingDB/20)` it scales every sample by
`target/peak`, otherwise (including the zero-peak silent case, which never
divides by zero) it is a no-op; afterwards the sample peak is at most
`10^(peakCeilingDB/20)` (hence at most that plus any `ε ≥ 0`) for every
input. -/
theorem true_peak_guard_spec (db : ℝ) (xs : List ℝ) :
    (peakOf xs = 0 → truePeakGuard db xs = xs) ∧
    ((10 : ℝ) ^ (db / 20) < peakOf xs →
      truePeakGuard db xs = xs.map (fun s => s * ((10 : ℝ) ^ (db / 20) / peakOf xs))) ∧
    (peakOf xs ≤ (10 : ℝ) ^ (db / 20) → truePeakGuard db xs = xs) ∧
    peakOf (truePeakGuard db xs) ≤ (10 : ℝ) ^ (db / 20) := by
  have hT : (0 : ℝ) < (10 : ℝ) ^ (db / 20) := Real.rpow_pos_of_pos (by norm_num) _
  have hp0 : 0 ≤ peakOf xs := peakOf_nonneg xs
  have hzero : peakOf xs = 0 → truePeakGuard db xs = xs := by
    intro h
    simp only [truePeakGuard]
    rw [if_pos (le_of_eq h)]
  have hscale : (10 : ℝ) ^ (db / 20) < peakOf xs →
      truePeakGuard db xs = xs.map (fun s => s * ((10 : ℝ) ^ (db / 20) / peakOf xs)) := by
    intro h
    have hpos : 0 < peakOf xs := lt_trans hT h
    simp only [truePeakGuard]
    rw [if_neg (not_le.mpr hpos), if_pos h]
  have hnoop : peakOf xs ≤ (10 : ℝ) ^ (db / 20) → truePeakGuard db xs = xs := by
    intro h
    by_cases hle : peakOf xs ≤ 0
    · simp only [truePeakGuard]
      rw [if_pos hle]
    · simp only [truePeakGuard]
      rw [if_neg hle, if_neg (not_lt.mpr h)]
  refine ⟨hzero, hscale, hnoop, ?_⟩
  by_cases hlt : (10 : ℝ) ^ (db / 20) < peakOf xs
  · have hpos : 0 < peakOf xs := lt_trans hT hlt
    rw [hscale hlt, peakOf_map_mul _ _ (div_nonneg hT.le hp0), mul_comm,
      div_mul_cancel₀ _ (ne_of_gt hpos)]
  · rw [hnoop (not_lt.mp hlt)]
    exact not_lt.mp hlt

theorem true_peak_guard_spec_witness :
    peakOf ([] : List ℝ) = 0 ∧ truePeakGuard 0 ([] : List ℝ) = [] :=
  ⟨rfl, (true_peak_guard_spec 0 []).1 rfl⟩

/-! ### C8: the sample normalizer on the extreme signed sample -/

/-- C8: the normalizer divides integer input by `np.iinfo(dtype).max`, the
largest positive value — for signed dtypes this is NOT the maximum
magnitude, and the minimum int16 sample -32768 maps to -32768/32767,
strictly below -1, so the output does not lie in the canonical range
[-1, 1] for every representable sample (contradicting the function's own
docstring "Ensure audio is float32 in range [-1, 1]").  The floating
branch is a cast-only pass-through. -/
theorem to_float32_int16_min_below_range :
    intRepresentable true 16 (-32768) ∧
    toFloat32Int true 16 (-32768) = -(32768 : ℚ) / 32767 ∧
    toFloat32Int true 16 (-32768) < -1 ∧
    toFloat32Float (1 / 2) = 1 / 2 ∧
    toFloat32AudioInt true 16 [-32768] = [-(32768 : ℚ) / 32767] := by
  refine ⟨by norm_num [intRepresentable], ?_, ?_, rfl, ?_⟩
  · norm_num [toFloat32Int, iinfoMax]
  · norm_num [toFloat32Int, iinfoMax]
  · norm_num [toFloat32AudioInt, toFloat32Int, iinfoMax]

/-! ### C7: every stage preserves frame count and channel count -/

theorem hpChannelF_length (a : ℝ) :
    ∀ (xs : List F) (xp yp : F), (hpChannelF a xs xp yp).length = xs.length := by
  intro xs
  induction xs with
  | nil => intro xp yp; rfl
  | cons x rest ih => intro xp yp; simp [hpChannelF, ih]

theorem map_map_shape (f : F → F) (buf : List (List F)) :
    (buf.map (List.map f)).map List.length = buf.map List.length := by
  simp [List.map_map, Function.comp]

theorem highpassF_shape (sr cf : ℝ) (buf : List (List F)) :
    (highpassF sr cf buf).map List.length = buf.map List.length := by
  simp [highpassF, List.map_map, Function.comp, hpChannelF_length]

theorem applyGainF_shape (g : F) (buf : List (List F)) :
    (applyGainF g buf).map List.length = buf.map List.length :=
  map_map_shape _ buf

theorem softLimiterF_shape (t : ℝ) (buf : List (List F)) :
    (softLimiterF t buf).map List.length = buf.map List.length := by
  simp only [softLimiterF]
  exact map_map_shape _ buf

theorem truePeakGuardF_shape (db : ℝ) (buf : List (List F)) :
    (truePeakGuardF db buf).map List.length = buf.map List.length := by
  simp only [truePeakGuardF]
  split_ifs with h1 h2
  · rfl
  · exact map_map_shape _ buf
  · rfl

/-- C7: each stage of the chain (normalize, high-pass, gain, soft limit,
peak guard) preserves the per-channel frame counts and the channel count,
so the end-to-end output of `master_chain` has exactly the input's
frameCount and channelCount — for every input buffer and every meter,
sample rate, target and gain. -/
theorem master_chain_preserves_shape (meter : List (List F) → F)
    (sr cf t db : ℝ) (target g : F) (data : List (List F)) :
    (toFloat32F data).map List.length = data.map List.length ∧
    (highpassF sr cf data).map List.length = data.map List.length ∧
    (applyGainF g data).map List.length = data.map List.length ∧
    (softLimiterF t data).map List.length = data.map List.length ∧
    (truePeakGuardF db data).map List.length = data.map List.length ∧
    (masterChainF meter sr target data).map List.length = data.map List.length ∧
    (masterChainF meter sr target data).length = data.length := by
  have hchain : (masterChainF meter sr target data).map List.length
      = data.map List.length := by
    show (truePeakGuardF (-1) (softLimiterF 0.95 (applyGainF _ (highpassF sr 80
      (toFloat32F data))))).map List.length = data.map List.length
    rw [truePeakGuardF_shape, softLimiterF_shape, applyGainF_shape,
      highpassF_shape]
    rfl
  refine ⟨rfl, highpassF_shape sr cf data, applyGainF_shape g data,
    softLimiterF_shape t data, truePeakGuardF_shape db data, hchain, ?_⟩
  have := congrArg List.length hchain
  simpa using this

/-! ### C9: loudness measurement depends only on the first two channels -/

theorem highpassF_take (sr cf : ℝ) (b : List (List F)) (n : ℕ) :
    (highpassF sr cf b).take n = highpassF sr cf (b.take n) := by
  simp [highpassF, List.map_take]

theorem highpassF_length (sr cf : ℝ) (b : List (List F)) :
    (highpassF sr cf b).length = b.length := by
  simp [highpassF]

/-- C9: for buffers with more than two channels, the buffer passed to the
loudness meter is exactly the first-two-channels truncation of the filtered
buffer, so the computed gain depends only on the first two channels of the
input; the resulting gain (and every later stage) is still applied to the
whole buffer, channels beyond two included. -/
theorem loudness_uses_first_two_channels (meter : List (List F) → F)
    (sr : ℝ) (target : F) (b1 b2 : List (List F))
    (h1 : 2 < b1.length) (h2 : 2 < b2.length) (htake : b1.take 2 = b2.take 2) :
    meterInput (highpassF sr 80 b1) = (highpassF sr 80 b1).take 2 ∧
    chainGainF meter target (highpassF sr 80 b1)
      = chainGainF meter target (highpassF sr 80 b2) ∧
    masterChainF meter sr target b1 =
      truePeakGuardF (-1) (softLimiterF 0.95
        (applyGainF (chainGainF meter target (highpassF sr 80 b1))
          (highpassF sr 80 b1))) := by
  have hmi : ∀ b : List (List F), 2 < b.length →
      meterInput (highpassF sr 80 b) = (highpassF sr 80 b).take 2 := by
    intro b hb
    unfold meterInput
    rw [if_pos (by rw [highpassF_length]; exact hb)]
  have hsame : meterInput (highpassF sr 80 b1) = meterInput (highpassF sr 80 b2) := by
    rw [hmi b1 h1, hmi b2 h2, highpassF_take, highpassF_take, htake]
  refine ⟨hmi b1 h1, ?_, rfl⟩
  unfold chainGainF
  rw [hsame]

theorem loudness_uses_first_two_channels_witness :
    meterInput (highpassF 44100 80 [[F.fin 0], [F.fin 0], [F.fin 0]])
      = (highpassF 44100 80 [[F.fin 0], [F.fin 0], [F.fin 0]]).take 2 ∧
    chainGainF (fun _ => F.fin 0) (F.fin (-14))
        (highpassF 44100 80 [[F.fin 0], [F.fin 0], [F.fin 0]])
      = chainGainF (fun _ => F.fin 0) (F.fin (-14))
        (highpassF 44100 80 [[F.fin 0], [F.fin 0], [F.fin 1]]) ∧
    masterChainF (fun _ => F.fin 0) 44100 (F.fin (-14)) [[F.fin 0], [F.fin 0], [F.fin 0]] =
      truePeakGuardF (-1) (softLimiterF 0.95
        (applyGainF (chainGainF (fun _ => F.fin 0) (F.fin (-14))
            (highpassF 44100 80 [[F.fin 0], [F.fin 0], [F.fin 0]]))
          (highpassF 44100 80 [[F.fin 0], [F.fin 0], [F.fin 0]]))) :=
  loudness_uses_first_two_channels (fun _ => F.fin 0) 44100 (F.fin (-14))
    [[F.fin 0], [F.fin 0], [F.fin 0]] [[F.fin 0], [F.fin 0], [F.fin 1]]
    (by norm_num) (by norm_num) rfl

/-! ### Evaluation lemmas for the float model -/

theorem F_mul_fin_zero_inf : F.mul (F.fin 0) F.inf = F.nan := by
  show (if (0 : ℝ) = 0 then F.nan else if 0 < (0 : ℝ) then F.inf else F.ninf) = F.nan
  rw [if_pos rfl]

theorem F_div_inf_fin_twenty : F.div F.inf (F.fin 20) = F.inf := by
  show (if (0 : ℝ) ≤ 20 then F.inf else F.ninf) = F.inf
  rw [if_pos (by norm_num)]

theorem F_zero_step (a : ℝ) :
    F.mul (F.fin a) (F.sub (F.add (F.fin 0) (F.fin 0)) (F.fin 0)) = F.fin 0 := by
  show F.fin (a * ((0 + 0) - 0)) = F.fin 0
  norm_num

theorem hpChannelF_silent (a : ℝ) :
    ∀ n, hpChannelF a (List.replicate n (F.fin 0)) (F.fin 0) (F.fin 0)
      = List.replicate n (F.fin 0) := by
  intro n
  induction n with
  | zero => rfl
  | succ k ih =>
    rw [List.replicate_succ]
    show F.mul (F.fin a) (F.sub (F.add (F.fin 0) (F.fin 0)) (F.fin 0))
        :: hpChannelF a (List.replicate k (F.fin 0)) (F.fin 0)
            (F.mul (F.fin a) (F.sub (F.add (F.fin 0) (F.fin 0)) (F.fin 0)))
      = List.replicate (k + 1) (F.fin 0)
    rw [F_zero_step, ih, ← List.replicate_succ]

theorem highpassF_silent (sr : ℝ) (c n : ℕ) :
    highpassF sr 80 (silentBuf c n) = silentBuf c n := by
  simp [highpassF, silentBuf, List.map_replicate, hpChannelF_silent]

theorem applyGainF_inf_silent (c n : ℕ) :
    applyGainF F.inf (silentBuf c n) = List.replicate c (List.replicate n F.nan) := by
  simp [applyGainF, silentBuf, List.map_replicate, F_mul_fin_zero_inf]

theorem softLimiterF_allNan (t : ℝ) (c n : ℕ) :
    softLimiterF t (List.replicate c (List.replicate n F.nan))
      = List.replicate c (List.replicate n F.nan) := by
  simp [softLimiterF, List.map_replicate, F.div, F.tanh, F.mul]

theorem foldl_fmax_nan : ∀ l : List F, l.foldl F.fmax F.nan = F.nan := by
  intro l
  induction l with
  | nil => rfl
  | cons x xs ih =>
    have h : F.fmax F.nan x = F.nan := by cases x <;> rfl
    rw [List.foldl_cons, h, ih]

theorem peakF_allNan (c n : ℕ) :
    peakF (List.replicate (c + 1) (List.replicate (n + 1) F.nan)) = F.nan := by
  have hflat : (List.replicate (c + 1) (List.replicate (n + 1) F.nan)).flatten
      = F.nan :: (List.replicate n F.nan
          ++ (List.replicate c (List.replicate (n + 1) F.nan)).flatten) := by
    rw [List.replicate_succ, List.flatten_cons, List.replicate_succ, List.cons_append]
  simp only [peakF, hflat]
  have habs : F.abs F.nan = F.nan := rfl
  rw [habs, foldl_fmax_nan]

theorem truePeakGuardF_allNan (db : ℝ) (c n : ℕ) :
    truePeakGuardF db (List.replicate (c + 1) (List.replicate (n + 1) F.nan))
      = List.replicate (c + 1) (List.replicate (n + 1) F.nan) := by
  simp only [truePeakGuardF, peakF_allNan]
  have h1 : F.leb F.nan (F.fin 0) = false := rfl
  have h2 : ∀ x : F, F.ltb x F.nan = false := by
    intro x
    cases x <;> rfl
  simp [h1, h2]

/-! ### C1: a silent input produces an all-NaN output (no sentinel clamp) -/

/-- C1: the claim says the chain clamps the gain to `maxGainDB` when the
measured loudness is the silence sentinel, so that silence in yields
silence out with no NaN/Infinity.  The code has no such clamp (and no
`maxGainDB` at all): when the meter returns the -inf sentinel on the
filtered silent buffer, `gain_db = target - (-inf) = +inf`,
`gain = 10**(inf/20) = inf`, and every sample becomes `0 * inf = NaN`,
which the limiter and the peak guard pass through unchanged — the output
buffer is entirely NaN, for every channel count, frame count, finite
target and sample rate. -/
theorem master_chain_silent_input_all_nan (meter : List (List F) → F)
    (sr t : ℝ) (c n : ℕ)
    (hm : meter (meterInput (silentBuf (c + 1) (n + 1))) = F.ninf) :
    masterChainF meter sr (F.fin t) (silentBuf (c + 1) (n + 1))
      = List.replicate (c + 1) (List.replicate (n + 1) F.nan) := by
  have hhp : highpassF sr 80 (silentBuf (c + 1) (n + 1)) = silentBuf (c + 1) (n + 1) :=
    highpassF_silent sr (c + 1) (n + 1)
  have hgain : chainGainF meter (F.fin t) (silentBuf (c + 1) (n + 1)) = F.inf := by
    unfold chainGainF
    rw [hm]
    show F.pow10 (F.div F.inf (F.fin 20)) = F.inf
    rw [F_div_inf_fin_twenty]
    rfl
  have hstep : masterChainF meter sr (F.fin t) (silentBuf (c + 1) (n + 1))
      = truePeakGuardF (-1) (softLimiterF 0.95
          (applyGainF F.inf (silentBuf (c + 1) (n + 1)))) := by
    show truePeakGuardF (-1) (softLimiterF 0.95
        (applyGainF (chainGainF meter (F.fin t)
            (highpassF sr 80 (silentBuf (c + 1) (n + 1))))
          (highpassF sr 80 (silentBuf (c + 1) (n + 1))))) = _
    rw [hhp, hgain]
  rw [hstep, applyGainF_inf_silent, softLimiterF_allNan, truePeakGuardF_allNan]

theorem master_chain_silent_input_all_nan_witness :
    masterChainF (fun _ => F.ninf) 44100 (F.fin (-14)) (silentBuf 1 1) = [[F.nan]] :=
  master_chain_silent_input_all_nan (fun _ => F.ninf) 44100 (-14) 0 0 rfl

/-! ### C2: the endpoint performs no configuration validation -/

/-- C2 counterexample: the claim says `master` fails with `ConfigError` and
produces no mastered output whenever `target_lufs` is non-finite.  The code
has no validation at all: with `target_lufs = NaN` (non-finite) and a
decodable one-sample buffer, the endpoint still returns a mastered
response — whose single sample is NaN. -/
theorem master_endpoint_nan_target_produces_output :
    F.isFinite F.nan = false ∧
    masterEndpoint (fun _ => F.fin 0) 44100 (some [[F.fin (1 / 2)]]) F.nan
      = MasterResponse.mastered [[F.nan]] := by
  refine ⟨rfl, ?_⟩
  show MasterResponse.mastered
      (masterChainF (fun _ => F.fin 0) 44100 F.nan [[F.fin (1 / 2)]]) = _
  have h1 : applyGainF (chainGainF (fun _ => F.fin 0) F.nan
        (highpassF 44100 80 [[F.fin (1 / 2)]]))
      (highpassF 44100 80 [[F.fin (1 / 2)]]) = [[F.nan]] := rfl
  have h2 : softLimiterF 0.95 [[F.nan]] = [[F.nan]] := softLimiterF_allNan 0.95 1 1
  have h3 : truePeakGuardF (-1) [[F.nan]] = [[F.nan]] := truePeakGuardF_allNan (-1) 0 0
  have hchain : masterChainF (fun _ => F.fin 0) 44100 F.nan [[F.fin (1 / 2)]]
      = [[F.nan]] := by
    show truePeakGuardF (-1) (softLimiterF 0.95
        (applyGainF (chainGainF (fun _ => F.fin 0) F.nan
            (highpassF 44100 80 [[F.fin (1 / 2)]]))
          (highpassF 44100 80 [[F.fin (1 / 2)]]))) = [[F.nan]]
    rw [h1, h2, h3]
  rw [hchain]

/-- C2 amended: the entry point performs no finiteness validation and has no
`ConfigError` path: for every non-finite `target_lufs` (and in fact every
target), once decoding succeeds the endpoint produces a mastered output
instead of rejecting the request. -/
theorem master_endpoint_no_config_validation (meter : List (List F) → F)
    (sr : ℝ) (data : List (List F)) (target : F)
    (_h : F.isFinite target = false) :
    ∃ out, masterEndpoint meter sr (some data) target
      = MasterResponse.mastered out :=
  ⟨_, rfl⟩

theorem master_endpoint_no_config_validation_witness :
    F.isFinite F.inf = false ∧
    ∃ out, masterEndpoint (fun _ => F.fin 0) 44100 (some [[F.fin 0]]) F.inf
      = MasterResponse.mastered out :=
  ⟨rfl, master_endpoint_no_config_validation (fun _ => F.fin 0) 44100
    [[F.fin 0]] F.inf rfl⟩

end AiDaw
